import Mathlib

/-!
Shallow embedding of the mcp-search-server core pipeline: the engine-adapter
search-result parsing and content extraction (`BaseSearchService`), the TTL
cache (`CacheService`), cache-key normalization, argument validation
(`Validator.validateBoolean`), the tool-call dispatcher of `BaseMCPServer`,
and the bulk-search handler of `EnhancedServer`.

JavaScript strings are modelled as Lean `String` values manipulated through
their character lists; `Date.now()` is an explicit `Nat` parameter; thrown
exceptions are `Except` errors; the mutable cache `Map` is a function
`String -> Option (CacheEntry T)` threaded explicitly.
-/

/-! ## JavaScript string primitives -/

/-- Model of `String.prototype.toLowerCase` for the ASCII range, applied
character by character (`Char.toLower` lowers exactly the code points 65-90,
as the JavaScript function does on ASCII input). -/
def jsStrToLower (s : String) : String :=
  ⟨s.data.map Char.toLower⟩

/-- Characters removed from both ends by `String.prototype.trim` (the common
whitespace characters; the full JS set also has exotic Unicode spaces that the
repository's inputs do not use). -/
def isJsSpace (c : Char) : Bool :=
  c = ' ' || c = '\t' || c = '\n' || c = '\r'

/-- Model of `String.prototype.trim`. -/
def jsTrim (s : String) : String :=
  ⟨((s.data.dropWhile (isJsSpace ·)).reverse.dropWhile (isJsSpace ·)).reverse⟩

/-- Model of `String.prototype.substring(0, n)` (and `.take`). -/
def jsSubstrTo (s : String) (n : Nat) : String :=
  ⟨s.data.take n⟩

/-- Whether the character list `p` is an initial segment of `l`. -/
def charsStartWith : List Char → List Char → Bool
  | _, [] => true
  | [], _ :: _ => false
  | a :: as, b :: bs => a = b && charsStartWith as bs

/-- Model of `String.prototype.startsWith`. -/
def strStartsWith (s p : String) : Bool :=
  charsStartWith s.data p.data

/-- Model of `Array.prototype.join(sep)`. -/
def joinParts (sep : String) : List String → String
  | [] => ""
  | [s] => s
  | s :: rest => s ++ sep ++ joinParts sep rest

/-! ## Data model (src/types/index.ts) -/

/-- `SearchResult` from `src/types/index.ts` (the optional `date` field is
never produced by the parsers and is omitted). -/
structure SearchResult where
  title : String
  url : String
  snippet : String
  domain : String
deriving DecidableEq, Repr

/-- The closed `SearchEngine` union type. -/
inductive SearchEngine where
  | google
  | bing
  | duckduckgo
  | searx
  | startpage
deriving DecidableEq, Repr

/-! ## Engine adapter: search-result parsing (BaseSearchService) -/

/-- Model of `new URL(url).hostname` wrapped in `extractDomain`'s
`try/catch`: for an `http`/`https` URL the hostname is the authority part up
to the first delimiter; for a string that is not an absolute URL the `URL`
constructor throws and `extractDomain` returns `''`. -/
def extractDomain (url : String) : String :=
  if strStartsWith url "http://" then
    ⟨((url.data.drop 7).takeWhile fun c => !(c = '/' || c = ':' || c = '?' || c = '#'))⟩
  else if strStartsWith url "https://" then
    ⟨((url.data.drop 8).takeWhile fun c => !(c = '/' || c = ':' || c = '?' || c = '#'))⟩
  else ""

/-- From the spec's data-model invariant: a URL is absolute when it carries an
explicit `http`/`https` scheme.  Used only to state claims about result URLs;
the parser itself never computes this. -/
def isAbsoluteHttpUrl (url : String) : Bool :=
  strStartsWith url "http://" || strStartsWith url "https://"

/-- One result container as seen through an engine's selectors: the raw text
of the first title element (cheerio `.text()` of an empty selection is `''`),
the `href` attribute of the link element (`none` when the element or the
attribute is missing, i.e. `undefined`), and the raw snippet text. -/
structure ResultBlock where
  title : String
  href : Option String
  snippet : String
deriving DecidableEq, Repr

/-- A parsed HTML document abstracted to what the three selector families
return: the containers matching `.result` (DuckDuckGo), `div.g` (Google) and
`li.b_algo` (Bing), in document order. -/
structure SearchDoc where
  ddgResults : List ResultBlock
  googleResults : List ResultBlock
  bingResults : List ResultBlock
deriving DecidableEq, Repr

/-- The body shared by every per-engine `.each` callback: trim the title and
snippet, read the `href`, and keep the container only when both `title` and
`url` are truthy (non-empty). -/
def mkSearchResult (b : ResultBlock) : Option SearchResult :=
  match b.href with
  | none => none
  | some url =>
    let title := jsTrim b.title
    if title ≠ "" ∧ url ≠ "" then
      some ⟨title, url, jsTrim b.snippet, extractDomain url⟩
    else
      none

/-- The `.each` loop over result containers: it stops as soon as
`results.length >= maxResults` and silently skips containers missing a title
or link. -/
def collectResults : List ResultBlock → Nat → List SearchResult
  | [], _ => []
  | b :: bs, n =>
    if n = 0 then []
    else
      match mkSearchResult b with
      | some r => r :: collectResults bs (n - 1)
      | none => collectResults bs n

/-- `parseDuckDuckGoResults` over the abstracted document. -/
def parseDuckDuckGoResults (doc : SearchDoc) (maxResults : Nat) : List SearchResult :=
  collectResults doc.ddgResults maxResults

/-- `parseGoogleResults` over the abstracted document. -/
def parseGoogleResults (doc : SearchDoc) (maxResults : Nat) : List SearchResult :=
  collectResults doc.googleResults maxResults

/-- `parseBingResults` over the abstracted document. -/
def parseBingResults (doc : SearchDoc) (maxResults : Nat) : List SearchResult :=
  collectResults doc.bingResults maxResults

/-- `parseSearxResults` delegates to the DuckDuckGo parser (marked
`// Fallback` in the source). -/
def parseSearxResults (doc : SearchDoc) (maxResults : Nat) : List SearchResult :=
  parseDuckDuckGoResults doc maxResults

/-- `parseStartPageResults` delegates to the DuckDuckGo parser (marked
`// Fallback` in the source). -/
def parseStartPageResults (doc : SearchDoc) (maxResults : Nat) : List SearchResult :=
  parseDuckDuckGoResults doc maxResults

/-- `parseSearchResults`: the engine switch.  The `try/catch` around the
switch is represented by the function being total; the `default` branch is
unreachable because `SearchEngine` is a closed union. -/
def parseSearchResults (doc : SearchDoc) (engine : SearchEngine) (maxResults : Nat) :
    List SearchResult :=
  match engine with
  | .duckduckgo => parseDuckDuckGoResults doc maxResults
  | .google => parseGoogleResults doc maxResults
  | .bing => parseBingResults doc maxResults
  | .searx => parseSearxResults doc maxResults
  | .startpage => parseStartPageResults doc maxResults

/-! ## Basic parsing lemmas -/

theorem collectResults_length_le (blocks : List ResultBlock) (n : Nat) :
    (collectResults blocks n).length ≤ n := by
  induction blocks generalizing n with
  | nil => simp [collectResults]
  | cons b bs ih =>
    simp only [collectResults]
    by_cases h : n = 0
    · simp [h]
    · simp only [if_neg h]
      cases mkSearchResult b with
      | some r =>
        have := ih (n - 1)
        simp only [List.length_cons]
        omega
      | none => exact (ih n)

theorem mkSearchResult_fields (b : ResultBlock) (r : SearchResult)
    (h : mkSearchResult b = some r) : r.title ≠ "" ∧ r.url ≠ "" := by
  unfold mkSearchResult at h
  cases hb : b.href with
  | none => rw [hb] at h; exact absurd h (by simp)
  | some url =>
    rw [hb] at h
    dsimp only at h
    split at h
    case isTrue hc => cases h; exact hc
    case isFalse hc => exact absurd h (by simp)

theorem collectResults_mem (blocks : List ResultBlock) (n : Nat) (r : SearchResult)
    (h : r ∈ collectResults blocks n) : ∃ b ∈ blocks, mkSearchResult b = some r := by
  induction blocks generalizing n with
  | nil => simp [collectResults] at h
  | cons b bs ih =>
    simp only [collectResults] at h
    by_cases hn : n = 0
    · simp [hn] at h
    · rw [if_neg hn] at h
      cases hb : mkSearchResult b with
      | some r0 =>
        rw [hb] at h
        rcases List.mem_cons.mp h with h1 | h2
        · exact ⟨b, List.mem_cons_self b bs, by rw [hb, h1]⟩
        · obtain ⟨b1, hb1, hr1⟩ := ih (n - 1) h2
          exact ⟨b1, List.mem_cons_of_mem b hb1, hr1⟩
      | none =>
        rw [hb] at h
        obtain ⟨b1, hb1, hr1⟩ := ih n h
        exact ⟨b1, List.mem_cons_of_mem b hb1, hr1⟩

/-! ## Claim C1 -/

/-- A DuckDuckGo-style result container whose link carries a relative
`href` (the parser reads `attr('href')` without any absoluteness check). -/
def relativeHrefDoc : SearchDoc :=
  { ddgResults := [{ title := "Example", href := some "/relative", snippet := "" }]
    googleResults := []
    bingResults := [] }

/-- C1 counterexample: on `relativeHrefDoc` the search-result parsing used by
`search_web` keeps an item whose `url` is the relative string `"/relative"`,
so the claim that every parsed item has an absolute URL is false. -/
theorem parseDuckDuckGo_relative_href_cex :
    ¬ (∀ r ∈ parseSearchResults relativeHrefDoc SearchEngine.duckduckgo 5,
        isAbsoluteHttpUrl r.url = true) := by
  decide

/-- C1 (amended): for every document and `maxResults`, the parsing used by
`search_web` returns at most `maxResults` items, and every item has a
non-empty title and a non-empty (not necessarily absolute) URL. -/
theorem parseSearchResults_length_title_url (doc : SearchDoc) (engine : SearchEngine)
    (maxResults : Nat) :
    (parseSearchResults doc engine maxResults).length ≤ maxResults ∧
      ∀ r ∈ parseSearchResults doc engine maxResults, r.title ≠ "" ∧ r.url ≠ "" := by
  constructor
  · cases engine <;>
      simp only [parseSearchResults, parseDuckDuckGoResults, parseGoogleResults,
        parseBingResults, parseSearxResults, parseStartPageResults] <;>
      exact collectResults_length_le _ _
  · intro r hr
    have hmem : ∃ b, mkSearchResult b = some r := by
      cases engine <;>
        simp only [parseSearchResults, parseDuckDuckGoResults, parseGoogleResults,
          parseBingResults, parseSearxResults, parseStartPageResults] at hr <;>
        · obtain ⟨b, _, hb⟩ := collectResults_mem _ _ _ hr
          exact ⟨b, hb⟩
    obtain ⟨b, hb⟩ := hmem
    exact mkSearchResult_fields b r hb

/-- Witness for C1 (amended) at a concrete document with five well-formed
blocks and `maxResults = 3`. -/
theorem parseSearchResults_length_title_url_witness :
    (parseSearchResults relativeHrefDoc SearchEngine.duckduckgo 5).length ≤ 5 ∧
      ∀ r ∈ parseSearchResults relativeHrefDoc SearchEngine.duckduckgo 5,
        r.title ≠ "" ∧ r.url ≠ "" :=
  parseSearchResults_length_title_url relativeHrefDoc SearchEngine.duckduckgo 5

/-! ## Claim C6 -/

/-- C6: the engine-adapter parse is a total function into result lists (it
never throws across its boundary: the source wraps the switch in a
`try/catch` and every per-engine parser only filters containers), and on a
document where no selector matches anything, such as empty or malformed
markup, every engine yields `[]`. -/
theorem parseSearchResults_total_empty_on_no_match (doc : SearchDoc)
    (engine : SearchEngine) (maxResults : Nat) :
    (∃ rs : List SearchResult, parseSearchResults doc engine maxResults = rs) ∧
      (doc.ddgResults = [] → doc.googleResults = [] → doc.bingResults = [] →
        parseSearchResults doc engine maxResults = []) := by
  refine ⟨⟨parseSearchResults doc engine maxResults, rfl⟩, ?_⟩
  intro h1 h2 h3
  cases engine <;>
    simp [parseSearchResults, parseDuckDuckGoResults, parseGoogleResults,
      parseBingResults, parseSearxResults, parseStartPageResults, h1, h2, h3,
      collectResults]

/-- Witness for C6 at the empty document. -/
theorem parseSearchResults_total_empty_on_no_match_witness :
    parseSearchResults ⟨[], [], []⟩ SearchEngine.bing 10 = [] :=
  (parseSearchResults_total_empty_on_no_match ⟨[], [], []⟩ SearchEngine.bing 10).2
    rfl rfl rfl

/-! ## Claim C9 -/

/-- C9: the `searx` and `startpage` parsers have no dedicated selectors and
delegate to the DuckDuckGo parser, so on every document they return exactly
the DuckDuckGo result list. -/
theorem parseSearx_parseStartPage_fallback_eq (doc : SearchDoc) (maxResults : Nat) :
    parseSearchResults doc SearchEngine.searx maxResults =
        parseSearchResults doc SearchEngine.duckduckgo maxResults ∧
      parseSearchResults doc SearchEngine.startpage maxResults =
        parseSearchResults doc SearchEngine.duckduckgo maxResults :=
  ⟨rfl, rfl⟩

/-! ## Content extraction (BaseSearchService.extractTextContent) -/

/-- `DEFAULT_CONFIG.MAX_CONTENT_LENGTH` from `src/config/constants.ts`. -/
def MAX_CONTENT_LENGTH : Nat := 5000

/-- The `content_type` union validated by `Validator.validateContentType`. -/
inductive ContentType where
  | article
  | all
  | text_only
deriving DecidableEq, Repr

/-- A document abstracted to what `extractTextContent` reads from it: for
each of the five `CONTENT_SELECTORS.ARTICLE` selectors, the collapsed and
trimmed text of the first matching element after the
`CONTENT_SELECTORS.REMOVE` subtrees are stripped (`none` when the selector
matches nothing), and the collapsed and trimmed body text after the same
stripping. -/
structure ExtractDoc where
  articleCandidates : List (Option String)
  bodyText : String
deriving DecidableEq, Repr

/-- The article-selector loop: the first candidate whose cleaned text is
strictly longer than 100 characters is returned, truncated to
`MAX_CONTENT_LENGTH`. -/
def findArticleContent : List (Option String) → Option String
  | [] => none
  | none :: rest => findArticleContent rest
  | some c :: rest =>
    if 100 < c.length then some (jsSubstrTo c MAX_CONTENT_LENGTH)
    else findArticleContent rest

/-- `extractTextContent`: for `article` try the candidate selectors and fall
back to the body text truncated to `MAX_CONTENT_LENGTH`; for `text_only`
return the body text as is; otherwise return the truncated body text. -/
def extractTextContent (doc : ExtractDoc) (contentType : ContentType) : String :=
  match contentType with
  | .article =>
    match findArticleContent doc.articleCandidates with
    | some s => s
    | none => jsSubstrTo doc.bodyText MAX_CONTENT_LENGTH
  | .text_only => doc.bodyText
  | .all => jsSubstrTo doc.bodyText MAX_CONTENT_LENGTH

theorem jsSubstrTo_length_le (s : String) (n : Nat) : (jsSubstrTo s n).length ≤ n := by
  show (s.data.take n).length ≤ n
  simp

theorem findArticleContent_length_le (cands : List (Option String)) (s : String)
    (h : findArticleContent cands = some s) : s.length ≤ MAX_CONTENT_LENGTH := by
  induction cands with
  | nil => simp [findArticleContent] at h
  | cons c rest ih =>
    cases c with
    | none => exact ih h
    | some c0 =>
      simp only [findArticleContent] at h
      by_cases hc : 100 < c0.length
      · rw [if_pos hc] at h
        cases h
        exact jsSubstrTo_length_le c0 MAX_CONTENT_LENGTH
      · rw [if_neg hc] at h
        exact ih h

/-! ## Claim C2 -/

/-- A body text of 5001 characters, one more than `MAX_CONTENT_LENGTH`. -/
def longBody : String := ⟨List.replicate 5001 'a'⟩

/-- A document with no article candidates and an over-long body. -/
def noArticleDoc : ExtractDoc := { articleCandidates := [], bodyText := longBody }

/-- C2 counterexample: with `contentType = text_only` the extractor returns
the body text without truncation, so on a 5001-character body the content
exceeds the 5000-character maximum and the claim is false. -/
theorem extractTextContent_text_only_untruncated_cex :
    ¬ (extractTextContent noArticleDoc ContentType.text_only).length ≤ 5000 := by
  have h : extractTextContent noArticleDoc ContentType.text_only = longBody := rfl
  have h2 : longBody.length = 5001 := by
    show (List.replicate 5001 'a').length = 5001
    rw [List.length_replicate]
  rw [h, h2]
  omega

/-- C2 (amended): for `contentType` `article` and `all` the extracted content
never exceeds `MAX_CONTENT_LENGTH` (5000) characters, and when no article
candidate qualifies the `article` content is the body text truncated to that
maximum; for `text_only` the content is the body text returned without
truncation. -/
theorem extractTextContent_length_and_fallback (doc : ExtractDoc) (ct : ContentType) :
    (ct ≠ ContentType.text_only → (extractTextContent doc ct).length ≤ 5000) ∧
      (findArticleContent doc.articleCandidates = none →
        extractTextContent doc ContentType.article =
          jsSubstrTo doc.bodyText MAX_CONTENT_LENGTH) ∧
      extractTextContent doc ContentType.text_only = doc.bodyText := by
  refine ⟨?_, ?_, rfl⟩
  · intro hct
    cases ct with
    | text_only => exact absurd rfl hct
    | all => exact jsSubstrTo_length_le doc.bodyText MAX_CONTENT_LENGTH
    | article =>
      simp only [extractTextContent]
      cases hf : findArticleContent doc.articleCandidates with
      | some s => exact findArticleContent_length_le doc.articleCandidates s hf
      | none => exact jsSubstrTo_length_le doc.bodyText MAX_CONTENT_LENGTH
  · intro hf
    simp only [extractTextContent, hf]

/-- Witness for C2 (amended) at the concrete over-long document: the
`article` extraction truncates the 5001-character body to 5000 characters. -/
theorem extractTextContent_length_and_fallback_witness :
    (ContentType.article ≠ ContentType.text_only →
      (extractTextContent noArticleDoc ContentType.article).length ≤ 5000) ∧
      ((findArticleContent noArticleDoc.articleCandidates = none →
        extractTextContent noArticleDoc ContentType.article =
          jsSubstrTo noArticleDoc.bodyText MAX_CONTENT_LENGTH) ∧
      extractTextContent noArticleDoc ContentType.text_only = noArticleDoc.bodyText) :=
  ⟨(extractTextContent_length_and_fallback noArticleDoc ContentType.article).1,
    (extractTextContent_length_and_fallback noArticleDoc ContentType.article).2⟩

/-! ## Cache (src/services/CacheService.ts) -/

/-- `CacheEntry<T>` from `src/types/index.ts`: `{results, timestamp}`. -/
structure CacheEntry (T : Type) where
  results : T
  timestamp : Nat
deriving DecidableEq, Repr

/-- `CacheService<T>`: the private `Map` is modelled as a function from keys
to optional entries, the configured `ttl` is fixed at construction, and
`Date.now()` is passed explicitly at each call. -/
structure CacheService (T : Type) where
  ttl : Nat
  store : String → Option (CacheEntry T)

/-- `set(key, value)` stores the value with the current time as timestamp. -/
def CacheService.set {T : Type} (c : CacheService T) (key : String) (value : T)
    (now : Nat) : CacheService T :=
  { c with store := fun k => if k = key then some ⟨value, now⟩ else c.store k }

/-- `delete(key)` (only its effect on the map; the returned boolean is not
modelled). -/
def CacheService.del {T : Type} (c : CacheService T) (key : String) : CacheService T :=
  { c with store := fun k => if k = key then none else c.store k }

/-- `get(key)`: a missing key is a miss; an entry whose age
`now - timestamp` is strictly greater than `ttl` is deleted and reported as a
miss; otherwise the stored value is returned.  The pair carries the possibly
updated service state. -/
def CacheService.get {T : Type} (c : CacheService T) (key : String) (now : Nat) :
    Option T × CacheService T :=
  match c.store key with
  | none => (none, c)
  | some e =>
    if now - e.timestamp > c.ttl then (none, c.del key)
    else (some e.results, c)

/-- `has(key)`: same strict expiry check as `get`, deleting an expired entry
as a side effect before answering `false`. -/
def CacheService.hasKey {T : Type} (c : CacheService T) (key : String) (now : Nat) :
    Bool × CacheService T :=
  match c.store key with
  | none => (false, c)
  | some e =>
    if now - e.timestamp > c.ttl then (false, c.del key)
    else (true, c)

/-- `cleanup()`: the periodic sweep deletes exactly the entries whose age is
strictly greater than `ttl`. -/
def CacheService.cleanup {T : Type} (c : CacheService T) (now : Nat) : CacheService T :=
  { c with
    store := fun k =>
      match c.store k with
      | none => none
      | some e => if now - e.timestamp > c.ttl then none else some e }

/-! ## Claim C5 -/

/-- C5: `set(k, v)` followed immediately (same clock reading) by `get(k)`
returns `v`; and a lookup of a key whose entry is strictly older than the
`ttl` is a miss (`none`) that removes the entry from the store. -/
theorem cache_set_get_roundtrip_and_expiry {T : Type} (c : CacheService T)
    (k : String) (v : T) (now : Nat) :
    (((c.set k v now).get k now).fst = some v) ∧
      (∀ e : CacheEntry T, c.store k = some e → now - e.timestamp > c.ttl →
        ((c.get k now).fst = none ∧ ((c.get k now).snd).store k = none)) := by
  constructor
  · simp [CacheService.set, CacheService.get]
  · intro e he hexp
    simp [CacheService.get, he, hexp, CacheService.del]

/-- Witness for C5 on a concrete `Nat` cache with `ttl = 100`: a round trip
at time 0 returns the stored value, and a lookup at time 201 of an entry
stamped 50 misses and evicts it. -/
theorem cache_set_get_roundtrip_and_expiry_witness :
    ((((⟨100, fun _ => none⟩ : CacheService Nat).set "k" 7 0).get "k" 0).fst = some 7) ∧
      (((⟨100, fun k => if k = "k" then some ⟨7, 50⟩ else none⟩ : CacheService Nat).get
          "k" 201).fst = none ∧
        (((⟨100, fun k => if k = "k" then some ⟨7, 50⟩ else none⟩ : CacheService Nat).get
          "k" 201).snd).store "k" = none) :=
  ⟨(cache_set_get_roundtrip_and_expiry (⟨100, fun _ => none⟩ : CacheService Nat)
      "k" 7 0).1,
    (cache_set_get_roundtrip_and_expiry
      (⟨100, fun k => if k = "k" then some ⟨7, 50⟩ else none⟩ : CacheService Nat)
      "k" 7 201).2 ⟨7, 50⟩ (by simp) (by decide)⟩

/-! ## Claim C10 -/

/-- C10: all three expiry checks (`get`, `has`, the periodic `cleanup`) are
strict: an entry is expired exactly when `now - timestamp` is strictly
greater than `ttl`, so an entry whose age equals the `ttl` is still a hit in
each of them; and `has` on an expired entry deletes it before returning
`false`. -/
theorem cache_strict_expiry_all_checks {T : Type} (c : CacheService T) (k : String)
    (e : CacheEntry T) (now : Nat) (he : c.store k = some e) :
    (((c.get k now).fst = some e.results) ↔ now - e.timestamp ≤ c.ttl) ∧
      (((c.hasKey k now).fst = true) ↔ now - e.timestamp ≤ c.ttl) ∧
      (((c.cleanup now).store k = some e) ↔ now - e.timestamp ≤ c.ttl) ∧
      (now - e.timestamp > c.ttl → ((c.hasKey k now).snd).store k = none) := by
  refine ⟨?_, ?_, ?_, ?_⟩
  · by_cases hexp : now - e.timestamp > c.ttl
    · simp [CacheService.get, he, hexp]
      omega
    · simp [CacheService.get, he, hexp]
      omega
  · by_cases hexp : now - e.timestamp > c.ttl
    · simp [CacheService.hasKey, he, hexp]
      omega
    · simp [CacheService.hasKey, he, hexp]
      omega
  · by_cases hexp : now - e.timestamp > c.ttl
    · simp [CacheService.cleanup, he, hexp]
      omega
    · simp [CacheService.cleanup, he, hexp]
      omega
  · intro hexp
    simp [CacheService.hasKey, he, hexp, CacheService.del]

/-- Witness for C10 on a concrete cache (`ttl = 100`, entry stamped 50): at
time 150 the age equals the `ttl` exactly and all three checks still treat
the entry as live; at time 151 `has` evicts it. -/
theorem cache_strict_expiry_all_checks_witness :
    (((⟨100, fun k => if k = "k" then some ⟨7, 50⟩ else none⟩ : CacheService Nat).get
        "k" 150).fst = some 7) ∧
      ((((⟨100, fun k => if k = "k" then some ⟨7, 50⟩ else none⟩ : CacheService Nat).hasKey
        "k" 151).snd).store "k" = none) :=
  ⟨(cache_strict_expiry_all_checks
      (⟨100, fun k => if k = "k" then some ⟨7, 50⟩ else none⟩ : CacheService Nat)
      "k" ⟨7, 50⟩ 150 (by simp)).1.mpr (by decide),
    (cache_strict_expiry_all_checks
      (⟨100, fun k => if k = "k" then some ⟨7, 50⟩ else none⟩ : CacheService Nat)
      "k" ⟨7, 50⟩ 151 (by simp)).2.2.2 (by decide)⟩

/-! ## Cache-key normalization (CacheService.generateKey / normalizeKey) -/

/-- The character class kept by the source regex `[^\w\-:.]` (everything else
is replaced): `\w` is `[A-Za-z0-9_]`, plus `-`, `:` and `.`.  Expressed over
code points so the claims reduce to arithmetic. -/
def keptByCodeRegex (c : Char) : Bool :=
  (97 ≤ c.toNat && c.toNat ≤ 122) || (65 ≤ c.toNat && c.toNat ≤ 90) ||
    (48 ≤ c.toNat && c.toNat ≤ 57) || c.toNat = 95 || c.toNat = 45 ||
    c.toNat = 58 || c.toNat = 46

/-- `normalizeKey`: lower-case, replace every character the regex does not
keep with `_`, and truncate to 200 characters. -/
def normalizeKey (key : String) : String :=
  ⟨((jsStrToLower key).data.map fun c => if keptByCodeRegex c then c else '_').take 200⟩

/-- `generateKey(prefix, ...parts)`: join the prefix and the stringified
parts with `:` and normalize. -/
def generateKey (pfx : String) (parts : List String) : String :=
  normalizeKey (joinParts ":" (pfx :: parts))

/-- The character class named by the specification: `[a-z0-9_.:-]`. -/
def specAllowedKeyChar (c : Char) : Bool :=
  (97 ≤ c.toNat && c.toNat ≤ 122) || (48 ≤ c.toNat && c.toNat ≤ 57) ||
    c.toNat = 95 || c.toNat = 46 || c.toNat = 58 || c.toNat = 45

/-- The key computation in the specification's words: join the prefix with
the stringified parts, lower-case the result, replace every character outside
`[a-z0-9_.:-]` with `_`, truncate to 200 characters. -/
def generateKeySpec (pfx : String) (parts : List String) : String :=
  ⟨((jsStrToLower (joinParts ":" (pfx :: parts))).data.map
      fun c => if specAllowedKeyChar c then c else '_').take 200⟩

theorem charToNat_ofNat {n : Nat} (h : n.isValidChar) : (Char.ofNat n).toNat = n := by
  rw [Char.ofNat, dif_pos h]
  have hlt : n < 2 ^ 32 := by
    rcases h with h | ⟨-, h⟩ <;> omega
  simp [Char.ofNatAux, Char.toNat, UInt32.ofNat', UInt32.toNat, BitVec.ofNat]

/-- After `toLowerCase`, no character is in the uppercase ASCII range. -/
theorem toLower_not_upper (c : Char) :
    ¬(65 ≤ (Char.toLower c).toNat ∧ (Char.toLower c).toNat ≤ 90) := by
  simp only [Char.toLower]
  by_cases h : c.toNat ≥ 65 ∧ c.toNat ≤ 90
  · rw [if_pos h]
    have hv : (c.toNat + 32).isValidChar := Or.inl (by omega)
    rw [charToNat_ofNat hv]
    omega
  · rw [if_neg h]
    omega

theorem keptByCodeRegex_eq_of_not_upper (d : Char)
    (h : ¬(65 ≤ d.toNat ∧ d.toNat ≤ 90)) :
    keptByCodeRegex d = specAllowedKeyChar d := by
  unfold keptByCodeRegex specAllowedKeyChar
  rw [Bool.eq_iff_iff]
  simp only [Bool.or_eq_true, Bool.and_eq_true, decide_eq_true_eq]
  omega

theorem keptByCodeRegex_toLower (c : Char) :
    keptByCodeRegex (Char.toLower c) = specAllowedKeyChar (Char.toLower c) :=
  keptByCodeRegex_eq_of_not_upper (Char.toLower c) (toLower_not_upper c)

/-! ## Claim C7 -/

/-- C7: `generateKey` is a pure function of `(prefix, parts)` (determinism is
inherent: it is a function), and it computes exactly the specified pipeline:
join with the stringified parts, lower-case, replace every character outside
`[a-z0-9_.:-]` with `_`, truncate to 200 characters.  The source regex also
keeps uppercase letters, but none survive the preceding lower-casing, so the
two character classes coincide on every reachable string. -/
theorem generateKey_deterministic_normalization (pfx : String) (parts : List String) :
    generateKey pfx parts = generateKeySpec pfx parts ∧
      (generateKey pfx parts).length ≤ 200 := by
  constructor
  · unfold generateKey normalizeKey generateKeySpec jsStrToLower
    have hmap :
        ∀ l : List Char,
          ((l.map Char.toLower).map fun c => if keptByCodeRegex c then c else '_') =
            ((l.map Char.toLower).map fun c => if specAllowedKeyChar c then c else '_') := by
      intro l
      rw [List.map_map, List.map_map]
      exact List.map_congr_left fun a _ => by
        simp only [Function.comp_apply, keptByCodeRegex_toLower a]
    rw [hmap]
  · show (List.take 200 _).length ≤ 200
    simp

/-! ## Validator.validateBoolean (src/utils/validation.ts) -/

/-- The dynamically typed argument values `validateBoolean` distinguishes:
`undefined`, `null`, booleans, numbers (integral values suffice for the
claims; the code only compares against `0`), and strings. -/
inductive JsValue where
  | undef
  | null
  | bool (b : Bool)
  | num (n : Int)
  | str (s : String)
deriving DecidableEq, Repr

/-- The string synonyms accepted as `true`. -/
def boolTrueStrings : List String := ["true", "1", "yes", "on"]

/-- The string synonyms accepted as `false`. -/
def boolFalseStrings : List String := ["false", "0", "no", "off"]

/-- `Validator.validateBoolean(value, defaultValue)`: `undefined`/`null`
yield the default; booleans pass through; strings are lower-cased and
matched against the synonym lists, falling through to the default otherwise;
numbers yield `value !== 0`. -/
def validateBoolean (value : JsValue) (defaultValue : Bool) : Bool :=
  match value with
  | .undef => defaultValue
  | .null => defaultValue
  | .bool b => b
  | .str s =>
    let lower := jsStrToLower s
    if boolTrueStrings.contains lower then true
    else if boolFalseStrings.contains lower then false
    else defaultValue
  | .num n => decide (n ≠ 0)

/-! ## Claim C8 -/

/-- C8 counterexample: the numeric value `2` is neither `0` nor `1`, so by
the claim it should yield the supplied default (`false`), but the code
returns `value !== 0`, i.e. `true`. -/
theorem validateBoolean_numeric_two_cex :
    ¬ validateBoolean (JsValue.num 2) false = false := by
  decide

/-- C8 (amended): `validateBoolean` accepts native booleans as themselves,
maps every number to `value !== 0` (so `0 ↦ false`, `1 ↦ true`, but also
`2 ↦ true` instead of the default), accepts the case-insensitive string
synonyms `"true"/"1"/"yes"/"on"` as `true` and `"false"/"0"/"no"/"off"` as
`false`, and returns the supplied default for `undefined`, `null`, and every
other string. -/
theorem validateBoolean_cases (d b : Bool) (n : Int) (s : String) :
    validateBoolean JsValue.undef d = d ∧
      validateBoolean JsValue.null d = d ∧
      validateBoolean (JsValue.bool b) d = b ∧
      validateBoolean (JsValue.num n) d = decide (n ≠ 0) ∧
      (boolTrueStrings.contains (jsStrToLower s) = true →
        validateBoolean (JsValue.str s) d = true) ∧
      (boolTrueStrings.contains (jsStrToLower s) = false →
        boolFalseStrings.contains (jsStrToLower s) = true →
        validateBoolean (JsValue.str s) d = false) ∧
      (boolTrueStrings.contains (jsStrToLower s) = false →
        boolFalseStrings.contains (jsStrToLower s) = false →
        validateBoolean (JsValue.str s) d = d) := by
  refine ⟨rfl, rfl, rfl, rfl, ?_, ?_, ?_⟩
  · intro h
    have h' : jsStrToLower s ∈ boolTrueStrings := by simpa using h
    simp [validateBoolean, h']
  · intro h1 h2
    have h1' : ¬ jsStrToLower s ∈ boolTrueStrings := by simpa using h1
    have h2' : jsStrToLower s ∈ boolFalseStrings := by simpa using h2
    simp [validateBoolean, h1', h2']
  · intro h1 h2
    have h1' : ¬ jsStrToLower s ∈ boolTrueStrings := by simpa using h1
    have h2' : ¬ jsStrToLower s ∈ boolFalseStrings := by simpa using h2
    simp [validateBoolean, h1', h2']

/-- Witness for C8 (amended): `"YES"` lower-cases to a true synonym, `"Off"`
to a false synonym, and `"maybe"` falls through to the default `true`. -/
theorem validateBoolean_cases_witness :
    validateBoolean (JsValue.str "YES") true = true ∧
      validateBoolean (JsValue.str "Off") true = false ∧
      validateBoolean (JsValue.str "maybe") true = true :=
  ⟨(validateBoolean_cases true true 0 "YES").2.2.2.2.1 (by decide),
    (validateBoolean_cases true true 0 "Off").2.2.2.2.2.1 (by decide) (by decide),
    (validateBoolean_cases true true 0 "maybe").2.2.2.2.2.2 (by decide) (by decide)⟩

/-! ## Dispatcher (BaseMCPServer.setupBaseHandlers, CallToolRequestSchema) -/

/-- The exceptions a tool handler can raise, as the dispatcher's `catch`
block distinguishes them: a `ValidationError` (an `Error` subclass with no
`code` property), an error carrying a numeric `code` (what `isMCPError`
recognizes, e.g. one built by `createMCPError`), or any other thrown error
reduced to its message. -/
inductive JsError where
  | validation (message : String)
  | withCode (code : Int) (message : String)
  | plain (message : String)
deriving DecidableEq, Repr

/-- `isMCPError`: `typeof error.code === 'number'`. -/
def isMCPError : JsError → Bool
  | .withCode _ _ => true
  | _ => false

/-- The message the `catch` block renders for an error it envelopes. -/
def dispatchErrMessage : JsError → String
  | .validation m => "Validation error: " ++ m
  | .withCode _ m => m
  | .plain m => m

/-- One `{type, text}` item of an MCP result envelope. -/
structure ContentItem where
  type : String
  text : String
deriving DecidableEq, Repr

/-- `MCPToolResult`: `{content, isError?}` (the absent flag is `false`). -/
structure ToolResult where
  content : List ContentItem
  isError : Bool
deriving DecidableEq, Repr

/-- `createErrorResult(message)`. -/
def createErrorResult (message : String) : ToolResult :=
  { content := [{ type := "text", text := "Error: " ++ message }], isError := true }

/-- `MCP_ERRORS.METHOD_NOT_FOUND`. -/
def METHOD_NOT_FOUND : Int := -32601

/-- The `tools/call` request handler: look the name up in the registry
(throwing a method-not-found MCP error for an unknown tool), run the handler,
and in the `catch` block convert a `ValidationError` or a plain error into an
error envelope — but re-throw any error that `isMCPError` recognizes.  The
registry is the list of tool names returned by `getTools()`; the handler is
`handleToolCall` applied to the already-bound arguments. -/
def callToolHandler (tools : List String)
    (handler : String → Except JsError ToolResult) (name : String) :
    Except JsError ToolResult :=
  let body : Except JsError ToolResult :=
    if tools.contains name then handler name
    else Except.error (JsError.withCode METHOD_NOT_FOUND ("Unknown tool: " ++ name))
  match body with
  | .ok r => .ok r
  | .error e =>
    match e with
    | .validation m => .ok (createErrorResult ("Validation error: " ++ m))
    | .withCode c m => .error (.withCode c m)
    | .plain m => .ok (createErrorResult m)

/-! ## Claim C3 -/

/-- C3 counterexample: a registered tool whose handler throws an error with a
numeric `code` (the shape `isMCPError` recognizes) is re-thrown by the
dispatcher instead of being converted into an `isError` envelope, so a
handler exception does propagate to the caller. -/
theorem callToolHandler_mcp_error_propagates_cex :
    callToolHandler ["search_web"]
        (fun _ => Except.error (JsError.withCode 42 "boom")) "search_web" =
      Except.error (JsError.withCode 42 "boom") ∧
      ∀ r : ToolResult,
        callToolHandler ["search_web"]
            (fun _ => Except.error (JsError.withCode 42 "boom")) "search_web" ≠
          Except.ok r := by
  refine ⟨rfl, ?_⟩
  intro r h
  have h2 : (Except.error (JsError.withCode 42 "boom") :
      Except JsError ToolResult) = Except.ok r := h
  exact Except.noConfusion h2

/-- C3 (amended): for a registered tool whose handler raises any exception
that is not an MCP protocol error (numeric `code`), the dispatcher returns a
well-formed envelope with `isError = true` and a single human-readable
`"Error: ..."` text item, and does not propagate the exception; MCP-shaped
errors are the one exception and are re-thrown. -/
theorem callToolHandler_error_envelope (tools : List String)
    (handler : String → Except JsError ToolResult) (name : String) (e : JsError)
    (hreg : tools.contains name = true) (hraise : handler name = Except.error e)
    (hshape : isMCPError e = false) :
    callToolHandler tools handler name =
        Except.ok (createErrorResult (dispatchErrMessage e)) ∧
      (createErrorResult (dispatchErrMessage e)).isError = true ∧
      (createErrorResult (dispatchErrMessage e)).content =
        [{ type := "text", text := "Error: " ++ dispatchErrMessage e }] := by
  refine ⟨?_, rfl, rfl⟩
  unfold callToolHandler
  rw [hreg]
  simp only [if_true, hraise]
  cases e with
  | validation m => rfl
  | withCode c m => exact absurd hshape (by simp [isMCPError])
  | plain m => rfl

/-- Witness for C3 (amended): a registered tool raising a plain error yields
the error envelope. -/
theorem callToolHandler_error_envelope_witness :
    callToolHandler ["search_web"] (fun _ => Except.error (JsError.plain "fetch failed"))
        "search_web" =
      Except.ok (createErrorResult (dispatchErrMessage (JsError.plain "fetch failed"))) :=
  (callToolHandler_error_envelope ["search_web"]
    (fun _ => Except.error (JsError.plain "fetch failed")) "search_web"
    (JsError.plain "fetch failed") (by decide) rfl (by decide)).1

/-! ## Bulk search (EnhancedServer.handleBulkSearch) -/

/-- The cache key built for one bulk-search query:
`generateKey('search', engine, query, maxResultsPerQuery)`. -/
def bulkCacheKey (engine : String) (maxResultsPerQuery : Nat) (query : String) : String :=
  generateKey "search" [engine, query, toString maxResultsPerQuery]

/-- One element of the aggregated bulk-search response: `{query, results}`
on success, `{query, results: cached, cached: true}` on a cache hit, and
`{query, error, results: []}` when the sub-search threw. -/
structure BulkEntry where
  query : String
  results : List SearchResult
  error : Option String
  cached : Bool
deriving DecidableEq, Repr

/-- The per-query async task of `handleBulkSearch`: consult the cache when
`useCache` is set, otherwise run the search; its own `try/catch` turns a
thrown sub-search error into an error entry, so the task itself never
throws.  The cache snapshot is the lookup function `cacheGet`; the
sub-search is `searchFn`, returning `Except` for a throwing search. -/
def bulkEntryFor (cacheGet : String → Option (List SearchResult))
    (searchFn : String → Except String (List SearchResult)) (useCache : Bool)
    (engine : String) (maxResultsPerQuery : Nat) (query : String) : BulkEntry :=
  let run : BulkEntry :=
    match searchFn query with
    | .ok rs => { query := query, results := rs, error := none, cached := false }
    | .error m => { query := query, results := [], error := some m, cached := false }
  if useCache then
    match cacheGet (bulkCacheKey engine maxResultsPerQuery query) with
    | some rs => { query := query, results := rs, error := none, cached := true }
    | none => run
  else run

/-- `handleBulkSearch` over already-validated queries: one independent task
per query, aggregated with `Promise.all` in input order. -/
def handleBulkSearch (cacheGet : String → Option (List SearchResult))
    (searchFn : String → Except String (List SearchResult)) (useCache : Bool)
    (engine : String) (maxResultsPerQuery : Nat) (queries : List String) :
    List BulkEntry :=
  queries.map (bulkEntryFor cacheGet searchFn useCache engine maxResultsPerQuery)

theorem bulkEntryFor_query (cacheGet : String → Option (List SearchResult))
    (searchFn : String → Except String (List SearchResult)) (useCache : Bool)
    (engine : String) (maxResultsPerQuery : Nat) (q : String) :
    (bulkEntryFor cacheGet searchFn useCache engine maxResultsPerQuery q).query = q := by
  unfold bulkEntryFor
  cases useCache with
  | false =>
    simp only [Bool.false_eq_true, if_false]
    cases searchFn q <;> rfl
  | true =>
    simp only [if_true]
    cases cacheGet (bulkCacheKey engine maxResultsPerQuery q) with
    | some rs => rfl
    | none => cases searchFn q <;> rfl

theorem bulkEntryFor_error_spec (cacheGet : String → Option (List SearchResult))
    (searchFn : String → Except String (List SearchResult)) (useCache : Bool)
    (engine : String) (maxResultsPerQuery : Nat) (q : String) :
    ((bulkEntryFor cacheGet searchFn useCache engine maxResultsPerQuery q).error =
        none →
      ((bulkEntryFor cacheGet searchFn useCache engine maxResultsPerQuery q).cached =
            true ∧
          cacheGet (bulkCacheKey engine maxResultsPerQuery q) =
            some (bulkEntryFor cacheGet searchFn useCache engine
              maxResultsPerQuery q).results) ∨
        searchFn q = Except.ok (bulkEntryFor cacheGet searchFn useCache engine
          maxResultsPerQuery q).results) ∧
      ∀ m, (bulkEntryFor cacheGet searchFn useCache engine maxResultsPerQuery q).error =
          some m →
        searchFn q = Except.error m := by
  unfold bulkEntryFor
  cases useCache with
  | false =>
    simp only [Bool.false_eq_true, if_false]
    cases hs : searchFn q with
    | ok rs => exact ⟨fun _ => Or.inr rfl, fun m hm => by simp at hm⟩
    | error m0 =>
      refine ⟨fun hno => by simp at hno, fun m hm => ?_⟩
      simp only [Option.some.injEq] at hm
      rw [hm]
  | true =>
    simp only [if_true]
    cases hc : cacheGet (bulkCacheKey engine maxResultsPerQuery q) with
    | some rs =>
      exact ⟨fun _ => Or.inl ⟨rfl, rfl⟩, fun m hm => by simp at hm⟩
    | none =>
      cases hs : searchFn q with
      | ok rs => exact ⟨fun _ => Or.inr rfl, fun m hm => by simp at hm⟩
      | error m0 =>
        refine ⟨fun hno => by simp at hno, fun m hm => ?_⟩
        simp only [Option.some.injEq] at hm
        rw [hm]

/-! ## Claim C4 -/

/-- C4: bulk search returns exactly one entry per validated query, in input
order (the mapped `query` fields are the input list); an entry carries an
`error` exactly when its own sub-search threw (and no cache hit intervened),
in which case the recorded error is that sub-search's message, while an
entry without `error` carries its own cached or freshly searched results;
the aggregation itself is a total function, so one failing query never
aborts the whole call. -/
theorem handleBulkSearch_per_query_isolation
    (cacheGet : String → Option (List SearchResult))
    (searchFn : String → Except String (List SearchResult)) (useCache : Bool)
    (engine : String) (maxResultsPerQuery : Nat) (queries : List String) :
    ((handleBulkSearch cacheGet searchFn useCache engine maxResultsPerQuery
        queries).map BulkEntry.query = queries) ∧
      ((handleBulkSearch cacheGet searchFn useCache engine maxResultsPerQuery
          queries).length = queries.length) ∧
      ∀ e ∈ handleBulkSearch cacheGet searchFn useCache engine maxResultsPerQuery
          queries,
        (e.error = none →
          ((e.cached = true ∧
              cacheGet (bulkCacheKey engine maxResultsPerQuery e.query) =
                some e.results) ∨
            searchFn e.query = Except.ok e.results)) ∧
          ∀ m, e.error = some m → searchFn e.query = Except.error m := by
  refine ⟨?_, ?_, ?_⟩
  · unfold handleBulkSearch
    rw [List.map_map]
    have : (BulkEntry.query ∘
        bulkEntryFor cacheGet searchFn useCache engine maxResultsPerQuery) = id := by
      funext q
      exact bulkEntryFor_query cacheGet searchFn useCache engine maxResultsPerQuery q
    rw [this, List.map_id]
  · unfold handleBulkSearch
    exact List.length_map queries _
  · intro e he
    obtain ⟨q, -, hq⟩ := List.mem_map.mp he
    have hqe : e.query = q := by
      rw [← hq]
      exact bulkEntryFor_query cacheGet searchFn useCache engine maxResultsPerQuery q
    have hspec :=
      bulkEntryFor_error_spec cacheGet searchFn useCache engine maxResultsPerQuery q
    rw [hq] at hspec
    rw [hqe]
    exact hspec

/-- Witness for C4 at a concrete two-query call where the second sub-search
throws: the entries keep the input order and the failing query's entry
records its error. -/
theorem handleBulkSearch_per_query_isolation_witness :
    ((handleBulkSearch (fun _ => none)
        (fun q => if q = "bad" then Except.error "fail" else Except.ok []) true
        "duckduckgo" 5 ["good", "bad"]).map BulkEntry.query = ["good", "bad"]) ∧
      (fun q => if q = "bad" then Except.error "fail" else Except.ok
          ([] : List SearchResult)) "bad" = Except.error "fail" :=
  ⟨(handleBulkSearch_per_query_isolation (fun _ => none)
      (fun q => if q = "bad" then Except.error "fail" else Except.ok []) true
      "duckduckgo" 5 ["good", "bad"]).1,
    ((handleBulkSearch_per_query_isolation (fun _ => none)
        (fun q => if q = "bad" then Except.error "fail" else Except.ok []) true
        "duckduckgo" 5 ["good", "bad"]).2.2
      ⟨"bad", [], some "fail", false⟩ (by decide)).2 "fail" rfl⟩
